import Mathlib

/-!
Verification of the nectar benchmark drivers (cli.go and the earlier
snapshot in src/unnamed/part_000) against their specification.

The drivers are embedded shallowly:

* The fixed-count drivers (benchDelete / benchGet / benchHead / benchPost /
  benchPut) share one producer/worker shape: a producer sends the values
  `1 .. count` (repeated `iterations` times for get/head) on a channel, and
  each worker loops: receive `i`; if `i == 0` (the zero value produced by a
  closed channel) stop; else `i--` and perform one StorageClient call on the
  names derived from `i`.  This is modelled by `sentValues`, `workerStep`
  and `workerRun` below; a run of the whole pool is any partition of the
  sent values among the workers (channel semantics: every sent value is
  received exactly once, by exactly one worker).
* benchMixed from cli.go (per-kind producers and worker pools, gated by the
  atomic completed-operation counters) is modelled as a labelled transition
  system `Step`/`Steps` further below.  For the GET/HEAD/POST producers the
  atomic counter loads, the cursor clamps and the gate test of one loop
  iteration are one step (`arm`), and the completion of the blocking
  channel send of the armed value is a separate, possibly much later step
  (`dispatch`) — the `deletes` counter may advance in between, exactly as
  in the program.  The PUT and DELETE producers keep load and send in one
  step: their gates read only the monotone `puts` counter, so a bound that
  holds at the load still holds at the send.
* benchMixed from the earlier snapshot (src/unnamed/part_000, the
  ratio-interleaved single-queue variant) is modelled by `opOrderOf` /
  `aBody` / `aDispatches`.
-/

namespace Nectar

/-- The five operation kinds of the mixed driver, in ratio-table order
(cli.go 920-933: `delet`, `get`, `head`, `post`, `put`). -/
inductive Method
  | delet
  | get
  | head
  | post
  | put
deriving DecidableEq, Repr

/-- Container name derivation shared by every bench worker (e.g. cli.go
461-464): when more than one container is configured the container name gets
the numeric suffix `i % containers`, otherwise it is used as-is. -/
def opContainerName (container : String) (containers : Nat) (i : Nat) : String :=
  if containers > 1 then container ++ toString (i % containers) else container

/-- Object name derivation shared by every bench worker (e.g. cli.go 465):
the object-name argument is used as a numeric-suffix base, `object + i`. -/
def opObjectName (object : String) (i : Nat) : String :=
  object ++ toString i

/-- The stream of values a fixed-count producer sends on `benchChan`
(cli.go 694-717 for benchGet: `for iteration ...` / `for i := 1; i <= count;
i++`): `iterations` rounds of the values `1 .. count`.  For the drivers
without an iterations flag (delete/post/put) `iterations = 1`. -/
def sentValues (count iterations : Nat) : List Nat :=
  (List.replicate iterations ((List.range count).map (· + 1))).flatten

/-- One worker receive (cli.go 636-640): value `0` — the zero value a closed
channel yields — is the termination sentinel; any other value `v` is
decremented (`i--`) to the operated index `v - 1`. -/
def workerStep (v : Nat) : Option Nat :=
  if v = 0 then none else some (v - 1)

/-- Observable outcome of one worker goroutine:
`ops` — indices issued to the StorageClient, in order;
`diags` — indices whose non-2xx response printed a diagnostic line to
standard error;
`fatalExit` — whether the worker called `cli.fatalf` (cliFatalf, cli.go
342-345: print the diagnostic to standard error and `os.Exit(1)`). -/
structure WorkerOut where
  ops : List Nat
  diags : List Nat
  fatalExit : Bool
deriving DecidableEq, Repr

/-- A worker loop over the values it receives (cli.go 632-684 for benchGet;
identical shape in the other fixed-count drivers).  `st i` is the HTTP
status the StorageClient returns for index `i`; `coe` is the global
`-continue-on-error` flag.  A non-2xx response (`st i / 100 ≠ 2`) prints a
diagnostic and then either continues (`coe = true`) or ends the process via
cliFatalf (`coe = false`).  No failed operation is ever reissued. -/
def workerRun (coe : Bool) (st : Nat → Nat) : List Nat → WorkerOut
  | [] => ⟨[], [], false⟩
  | v :: rest =>
    if v = 0 then ⟨[], [], false⟩
    else
      let i := v - 1
      if st i / 100 = 2 then
        let o := workerRun coe st rest
        ⟨i :: o.ops, o.diags, o.fatalExit⟩
      else if coe then
        let o := workerRun coe st rest
        ⟨i :: o.ops, i :: o.diags, o.fatalExit⟩
      else ⟨[i], [i], true⟩

/-- benchPut size clamp (cli.go 1653-1656): a negative `-size` flag falls
back to 4096. -/
def benchPutSize (flagSize : Int) : Int :=
  if flagSize < 0 then 4096 else flagSize

/-- benchPut maxsize clamp (cli.go 1657-1660): a `-maxsize` below the size
is raised to the size. -/
def benchPutMaxSize (flagMaxSize size : Int) : Int :=
  if flagMaxSize < size then size else flagMaxSize

/-- Body length of one benchPut PUT (cli.go 1751-1755): `sz := size`, plus
`rnd.Intn(maxsize - size)` when `maxsize > size`; the request body is
`io.LimitedReader{R: rnd, N: sz}` over the never-exhausted random source, so
the body is exactly `sz` bytes.  `intn` stands for the `rand.Intn` of the
worker's generator (math/rand contract: `0 ≤ intn n < n` for `n > 0`). -/
def putBodyLen (size maxsize : Int) (intn : Int → Int) : Int :=
  if maxsize > size then size + intn (maxsize - size) else size

/-- Header row of the single-kind per-interval throughput CSV
(cli.go 441 for benchDelete; benchGet/Head/Post/Put are identical). -/
def singleOTHeaderRow : List String :=
  ["time_unix_nano", "count_since_last_time"]

/-- Zero-baseline first data row of the single-kind throughput CSV
(cli.go 442). -/
def singleOTZeroRow (now : Nat) : List String :=
  [toString now, "0"]

/-- Per-tick data row of the single-kind throughput CSV (cli.go 517-522). -/
def singleOTTickRow (now : Nat) (soFar lastSoFar : Int) : List String :=
  [toString now, toString (soFar - lastSoFar)]

/-- Header row of the mixed-driver per-interval throughput CSV
(cli.go 960): a timestamp column plus five per-method columns. -/
def mixedOTHeaderRow : List String :=
  ["time_unix_nano", "DELETE", "GET", "HEAD", "POST", "PUT"]

/-- First data row of the mixed-driver throughput CSV exactly as cli.go 961
writes it: the timestamp followed by six `"0"` fields. -/
def mixedOTZeroRow (now : Nat) : List String :=
  [toString now, "0", "0", "0", "0", "0", "0"]

/-- Per-tick data row of the mixed-driver throughput CSV (cli.go 1318-1327):
the timestamp plus the five per-method deltas since the last tick. -/
def mixedOTTickRow (now : Nat) (dDeletes dGets dHeads dPosts dPuts : Int) : List String :=
  [toString now, toString dDeletes, toString dGets, toString dHeads,
    toString dPosts, toString dPuts]

/-- The sequence of `soFar` values a fixed-count producer prints at its
ticker (cli.go 508-529 for benchDelete): while trying to send value `i`
(`1 ≤ i ≤ count`), each minute tick computes `soFar := i - concurrency`;
`ticks i` is how many ticks fire while the producer is at `i`. -/
def benchLoopReports (count concurrency : Nat) (ticks : Nat → Nat) : List Int :=
  (List.range' 1 count).flatMap fun i =>
    List.replicate (ticks i) ((i : Int) - (concurrency : Int))

/-- State of one benchMixed run (cli.go 1002-1462).  Per method it carries
the number of task values sent on the method's channel, the completed-
operation counter the workers increment atomically after each StorageClient
call (`deletes`/`gets`/`heads`/`posts`/`puts`, cli.go 1014-1018), the
producer's cursor `i`, whether the producer goroutine is still running,
and how many of its `concurrency` workers are; for GET/HEAD/POST, `-Pend`
is the clamped index the producer is currently blocked on sending, if any
(the value of the loop variable at the `select` of cli.go 1382-1387);
`reporter` is the ticker-reporting goroutine (cli.go 1302-1336) and `done`
records whether the timespan timer has fired and closed `doneChan`
(cli.go 1002-1007). -/
structure MixedState where
  putsSent : Nat
  deletesSent : Nat
  getsSent : Nat
  headsSent : Nat
  postsSent : Nat
  puts : Nat
  deletes : Nat
  gets : Nat
  heads : Nat
  posts : Nat
  putCur : Nat
  delCur : Nat
  getCur : Nat
  headCur : Nat
  postCur : Nat
  getPend : Option Nat
  headPend : Option Nat
  postPend : Option Nat
  putProd : Bool
  delProd : Bool
  getProd : Bool
  headProd : Bool
  postProd : Bool
  putWorkers : Nat
  delWorkers : Nat
  getWorkers : Nat
  headWorkers : Nat
  postWorkers : Nat
  reporter : Bool
  done : Bool
deriving DecidableEq, Repr

/-- Number of task values sent so far on the channel of method `m`. -/
def MixedState.sent (s : MixedState) : Method → Nat
  | .delet => s.deletesSent
  | .get => s.getsSent
  | .head => s.headsSent
  | .post => s.postsSent
  | .put => s.putsSent

/-- The completed-operation counter of method `m` (the atomic counters the
gating windows read). -/
def MixedState.completed (s : MixedState) : Method → Nat
  | .delet => s.deletes
  | .get => s.gets
  | .head => s.heads
  | .post => s.posts
  | .put => s.puts

/-- The producer cursor `i` of method `m`. -/
def MixedState.cursor (s : MixedState) : Method → Nat
  | .delet => s.delCur
  | .get => s.getCur
  | .head => s.headCur
  | .post => s.postCur
  | .put => s.putCur

/-- The index the producer of method `m` is currently blocked on sending,
if any (meaningful only for GET/HEAD/POST; the DELETE and PUT producers
are modelled load-to-send fused and never hold a pending value). -/
def MixedState.pend (s : MixedState) : Method → Option Nat
  | .delet => none
  | .get => s.getPend
  | .head => s.headPend
  | .post => s.postPend
  | .put => none

/-- Whether the producer goroutine of method `m` is still running. -/
def MixedState.prodAlive (s : MixedState) : Method → Bool
  | .delet => s.delProd
  | .get => s.getProd
  | .head => s.headProd
  | .post => s.postProd
  | .put => s.putProd

/-- Number of still-running workers of method `m`. -/
def MixedState.workersAlive (s : MixedState) : Method → Nat
  | .delet => s.delWorkers
  | .get => s.getWorkers
  | .head => s.headWorkers
  | .post => s.postWorkers
  | .put => s.putWorkers

/-- Record one more task value sent on the channel of method `m`. -/
def MixedState.withSentInc (s : MixedState) : Method → MixedState
  | .delet => { s with deletesSent := s.deletesSent + 1 }
  | .get => { s with getsSent := s.getsSent + 1 }
  | .head => { s with headsSent := s.headsSent + 1 }
  | .post => { s with postsSent := s.postsSent + 1 }
  | .put => { s with putsSent := s.putsSent + 1 }

/-- A worker's `atomic.AddInt64` on the completed counter of method `m`. -/
def MixedState.withCompletedInc (s : MixedState) : Method → MixedState
  | .delet => { s with deletes := s.deletes + 1 }
  | .get => { s with gets := s.gets + 1 }
  | .head => { s with heads := s.heads + 1 }
  | .post => { s with posts := s.posts + 1 }
  | .put => { s with puts := s.puts + 1 }

/-- Set the producer cursor of method `m`. -/
def MixedState.withCursor (s : MixedState) (m : Method) (v : Nat) : MixedState :=
  match m with
  | .delet => { s with delCur := v }
  | .get => { s with getCur := v }
  | .head => { s with headCur := v }
  | .post => { s with postCur := v }
  | .put => { s with putCur := v }

/-- Set or clear the pending send value of a GET/HEAD/POST producer. -/
def MixedState.withPend (s : MixedState) (m : Method) (v : Option Nat) : MixedState :=
  match m with
  | .delet => s
  | .get => { s with getPend := v }
  | .head => { s with headPend := v }
  | .post => { s with postPend := v }
  | .put => s

/-- The producer of method `m` returns. -/
def MixedState.withProdDead (s : MixedState) : Method → MixedState
  | .delet => { s with delProd := false }
  | .get => { s with getProd := false }
  | .head => { s with headProd := false }
  | .post => { s with postProd := false }
  | .put => { s with putProd := false }

/-- One worker of method `m` returns. -/
def MixedState.withWorkerDec (s : MixedState) : Method → MixedState
  | .delet => { s with delWorkers := s.delWorkers - 1 }
  | .get => { s with getWorkers := s.getWorkers - 1 }
  | .head => { s with headWorkers := s.headWorkers - 1 }
  | .post => { s with postWorkers := s.postWorkers - 1 }
  | .put => { s with putWorkers := s.putWorkers - 1 }

/-- Initial state of a benchMixed run with concurrency `c`: all counters and
cursors zero, all five producers and the reporter running, `c` workers per
method, timer not yet fired. -/
def initState (c : Nat) : MixedState :=
  { putsSent := 0, deletesSent := 0, getsSent := 0, headsSent := 0, postsSent := 0
    puts := 0, deletes := 0, gets := 0, heads := 0, posts := 0
    putCur := 0, delCur := 0, getCur := 0, headCur := 0, postCur := 0
    getPend := none, headPend := none, postPend := none
    putProd := true, delProd := true, getProd := true, headProd := true, postProd := true
    putWorkers := c, delWorkers := c, getWorkers := c, headWorkers := c, postWorkers := c
    reporter := true, done := false }

/-- Low bound of the GET/HEAD/POST dispatch window (cli.go 1365):
`lo := int(atomic.LoadInt64(&deletes)) + concurrency*2`. -/
def ghpLo (c : Nat) (s : MixedState) : Nat :=
  s.deletes + c * 2

/-- High bound of the GET/HEAD/POST dispatch window (cli.go 1369):
`hi := int(atomic.LoadInt64(&puts)) - concurrency*2` (may be negative, so
an integer). -/
def ghpHi (c : Nat) (s : MixedState) : Int :=
  (s.puts : Int) - (c : Int) * 2

/-- First clamp of a GET/HEAD/POST producer (cli.go 1365-1368):
`if i < lo { i = lo }`. -/
def ghpClamp1 (c : Nat) (s : MixedState) (cur : Nat) : Nat :=
  if cur < ghpLo c s then ghpLo c s else cur

/-- The clamped cursor a GET/HEAD/POST producer computes from its current
cursor (cli.go 1365-1372): raise the cursor to `lo` if below it, then reset
it to `lo` if above `hi`. -/
def ghpNext (c : Nat) (s : MixedState) (cur : Nat) : Nat :=
  if (ghpClamp1 c s cur : Int) > ghpHi c s then ghpLo c s else ghpClamp1 c s cur

/-- Events of a benchMixed run: a GET/HEAD/POST producer arms its clamped
index `i` (the loads, clamps and gate test of one loop iteration, just
before blocking in the `select` that sends it); a producer's send of value
`i` on its method's channel completes; a worker completes one StorageClient
call and bumps the counter; a gated producer finds its window closed,
re-clamps and sleeps; the timespan timer fires and closes `doneChan`; a
producer, worker, or the reporter takes its `<-doneChan` branch and
returns. -/
inductive MEv
  | arm (m : Method) (i : Nat)
  | dispatch (m : Method) (i : Nat)
  | complete (m : Method)
  | poll (m : Method)
  | fireTimer
  | exitProd (m : Method)
  | exitWorker (m : Method)
  | exitReporter
deriving DecidableEq, Repr

/-- Labelled transition relation of one benchMixed run at concurrency `c`.
A GET/HEAD/POST producer iteration is two steps, because the atomic
counter loads and the blocking channel send are separate instructions in
the program (cli.go 1365-1387): `ghpArm` performs the loads, the clamps
and the gate test against the counters of its pre-state, moves the cursor
to the clamped value and records it as pending; `dispatchGhp` is the later
completion of the blocking send of exactly that pending value, with no
constraint relating it to the counters of its own pre-state — the
`deletes` counter may have advanced while the producer was blocked.  The
DELETE and PUT producers keep load and send in one step: the DELETE gate
reads only the monotone `puts` counter, so its bound at the load also
holds at the send.  A dispatch does not require `done = false`: a Go
`select` between the closed `doneChan` and a ready channel send chooses
among the ready cases (cli.go 1352-1357, 1382-1387, 1454-1460), so a
still-running producer may dispatch after the timer has fired.  The
sleep-and-recheck paths (cli.go 1343-1350, 1373-1380) do require
`done = false`, because they check `doneChan` with a `default` branch
before sleeping. -/
inductive Step (c : Nat) : MixedState → MEv → MixedState → Prop
  | dispatchPut (s : MixedState) (h : s.putProd = true) :
      Step c s (.dispatch .put s.putCur)
        ((s.withSentInc .put).withCursor .put (s.putCur + 1))
  | dispatchDelete (s : MixedState) (h : s.delProd = true)
      (hg : (s.delCur : Int) ≤ (s.puts : Int) - 10000) :
      Step c s (.dispatch .delet s.delCur)
        ((s.withSentInc .delet).withCursor .delet (s.delCur + 1))
  | pollDelete (s : MixedState) (h : s.delProd = true) (hd : s.done = false)
      (hg : (s.puts : Int) - 10000 < (s.delCur : Int)) :
      Step c s (.poll .delet) s
  | ghpArm (s : MixedState) (m : Method)
      (hm : m = .get ∨ m = .head ∨ m = .post) (h : s.prodAlive m = true)
      (hp : s.pend m = none) (hg : (ghpLo c s : Int) ≤ ghpHi c s) :
      Step c s (.arm m (ghpNext c s (s.cursor m)))
        ((s.withCursor m (ghpNext c s (s.cursor m))).withPend m
          (some (ghpNext c s (s.cursor m))))
  | dispatchGhp (s : MixedState) (m : Method) (i : Nat)
      (hm : m = .get ∨ m = .head ∨ m = .post) (h : s.prodAlive m = true)
      (hp : s.pend m = some i) :
      Step c s (.dispatch m i)
        (((s.withSentInc m).withCursor m (i + 1)).withPend m none)
  | pollGhp (s : MixedState) (m : Method)
      (hm : m = .get ∨ m = .head ∨ m = .post) (h : s.prodAlive m = true)
      (hp : s.pend m = none) (hd : s.done = false)
      (hg : ghpHi c s < (ghpLo c s : Int)) :
      Step c s (.poll m) (s.withCursor m (ghpLo c s))
  | completeOp (s : MixedState) (m : Method) (hw : 0 < s.workersAlive m)
      (hs : s.completed m < s.sent m) :
      Step c s (.complete m) (s.withCompletedInc m)
  | fireTimer (s : MixedState) (h : s.done = false) :
      Step c s .fireTimer { s with done := true }
  | exitProd (s : MixedState) (m : Method) (hd : s.done = true)
      (h : s.prodAlive m = true) :
      Step c s (.exitProd m) (s.withProdDead m)
  | exitWorker (s : MixedState) (m : Method) (hd : s.done = true)
      (hw : 0 < s.workersAlive m) :
      Step c s (.exitWorker m) (s.withWorkerDec m)
  | exitReporter (s : MixedState) (hd : s.done = true) (h : s.reporter = true) :
      Step c s .exitReporter { s with reporter := false }

/-- A finite execution: `Steps c s evs s'` means the event list `evs` leads
from `s` to `s'` under `Step c`. -/
inductive Steps (c : Nat) : MixedState → List MEv → MixedState → Prop
  | nil (s : MixedState) : Steps c s [] s
  | cons {s s' s'' : MixedState} {ev : MEv} {evs : List MEv} :
      Step c s ev s' → Steps c s' evs s'' → Steps c s (ev :: evs) s''

/-- A state reachable from the start of a benchMixed run. -/
def Reachable (c : Nat) (s : MixedState) : Prop :=
  ∃ evs, Steps c (initState c) evs s

/-- A run consisting of `n` PUT dispatches each followed by its completion
leaves the state with `puts = n` and everything else at its start value. -/
def putsOnly (c n : Nat) : MixedState :=
  { initState c with puts := n, putsSent := n, putCur := n }

/-- Event list of the `putsOnly` run. -/
def putsOnlyEvs : Nat → List MEv
  | 0 => []
  | n + 1 => putsOnlyEvs n ++ [.dispatch .put n, .complete .put]

/-- The state right after the timespan timer fires in a fresh run at
concurrency 1. -/
def doneState : MixedState :=
  { initState 1 with done := true }

/-- The state after the timer has fired and the PUT producer has taken its
done branch and returned. -/
def shutdownState : MixedState :=
  doneState.withProdDead Method.put

/-- A state of a concurrency-1 run in which the GET producer armed index 2
while `deletes = 0` and `puts = 10004`, and three DELETEs have completed
since: the armed send of 2 is still blocked although `deletes = 3 > 2`. -/
def cxState : MixedState :=
  { putsOnly 1 10004 with
    getCur := 2
    getPend := some 2
    deletesSent := 3
    delCur := 3
    deletes := 3 }

/-- Event list reaching `cxState`: 10004 dispatched-and-completed PUTs,
the GET producer's arm of index 2, then three dispatched-and-completed
DELETEs while the GET send stays blocked. -/
def cxEvs : List MEv :=
  putsOnlyEvs 10004 ++
    [.arm .get 2, .dispatch .delet 0, .complete .delet, .dispatch .delet 1,
      .complete .delet, .dispatch .delet 2, .complete .delet]

/-- Ratio-spec table of the earlier benchMixed snapshot
(src/unnamed/part_000 1698-1707): append each operation kind `op` to the
order table `ratio[op]` times.  The comma-separated flag string is split and
parsed by the Go standard library (`strings.Split` / `strconv.Atoi`), so the
table is built here from the parsed integer list. -/
def opOrderOf (ratios : List Int) : List Nat :=
  ratios.enum.flatMap fun p => List.replicate p.2.toNat p.1

/-- Producer-side state of the earlier benchMixed snapshot: the monotonic
`sentDeletes` and `sentPuts` counters (src/unnamed/part_000 1866-1867). -/
structure AState where
  sentDeletes : Nat
  sentPuts : Nat
deriving DecidableEq, Repr

/-- One iteration `x` of the request loop of the earlier snapshot
(src/unnamed/part_000 1868-1888): pick `op := opOrder[x % len(opOrder)]`;
a DELETE is skipped until 1000 PUTs have completed, otherwise it sends the
next `sentDeletes`; a PUT always sends the next `sentPuts`; GET/HEAD/POST
are skipped until `(puts - sentDeletes) / 2 ≥ 1000`, otherwise they send an
index from the middle of the live range.  `putsAt` is the value
`atomic.LoadInt64(&puts)` reads at this iteration.  (In Go the GET/HEAD/POST
range is a signed division, but a negative range is `< 1000` and skips just
as the natural-number truncation to `0` does.)  Returns the new state and
the `(op, index)` pair sent, if any. -/
def aBody (opOrder : List Nat) (putsAt : Nat) (x : Nat) (st : AState) :
    AState × Option (Nat × Nat) :=
  let op := opOrder.getD (x % opOrder.length) 0
  if op = 0 then
    if putsAt < 1000 then (st, none)
    else ({ st with sentDeletes := st.sentDeletes + 1 }, some (op, st.sentDeletes + 1))
  else if op = 4 then
    ({ st with sentPuts := st.sentPuts + 1 }, some (op, st.sentPuts + 1))
  else
    let rang := (putsAt - st.sentDeletes) / 2
    if rang < 1000 then (st, none)
    else (st, some (op, st.sentDeletes + rang / 2 + x % rang))

/-- The `(op, index)` pairs the earlier snapshot's request loop sends during
its first `n` iterations, with `putsAt x` the completed-PUT counter read at
iteration `x`. -/
def aDispatches (opOrder : List Nat) (putsAt : Nat → Nat) : Nat → AState × List (Nat × Nat)
  | 0 => (⟨0, 0⟩, [])
  | n + 1 =>
    let prev := aDispatches opOrder putsAt n
    match aBody opOrder (putsAt n) n prev.1 with
    | (st', some d) => (st', prev.2 ++ [d])
    | (st', none) => (st', prev.2)

theorem workerRun_all_ok (coe : Bool) (st : Nat → Nat) (vs : List Nat)
    (h0 : ∀ v ∈ vs, v ≠ 0) (h2 : ∀ i, st i / 100 = 2) :
    workerRun coe st vs = ⟨vs.map (· - 1), [], false⟩ := by
  induction vs with
  | nil => rfl
  | cons v rest ih =>
    have hv : v ≠ 0 := h0 v (List.mem_cons_self _ _)
    simp [workerRun, hv, h2 (v - 1), ih fun u hu => h0 u (List.mem_cons_of_mem _ hu)]

theorem workerRun_true_no_fatal (st : Nat → Nat) (vs : List Nat) :
    (workerRun true st vs).fatalExit = false := by
  induction vs with
  | nil => rfl
  | cons v rest ih =>
    by_cases hv : v = 0
    · simp [workerRun, hv]
    · by_cases hst : st (v - 1) / 100 = 2 <;> simp [workerRun, hv, hst, ih]

theorem sentValues_pos (count iterations : Nat) :
    ∀ v ∈ sentValues count iterations, v ≠ 0 := by
  intro v hv
  simp only [sentValues, List.mem_flatten, List.mem_replicate] at hv
  obtain ⟨l, ⟨-, rfl⟩, hvl⟩ := hv
  simp only [List.mem_map] at hvl
  obtain ⟨w, -, rfl⟩ := hvl
  omega

theorem sentValues_length (count iterations : Nat) :
    (sentValues count iterations).length = iterations * count := by
  induction iterations with
  | zero => simp [sentValues]
  | succ k ih =>
    have hsplit : sentValues count (k + 1) =
        ((List.range count).map (· + 1)) ++ sentValues count k := by
      simp [sentValues, List.replicate_succ]
    rw [hsplit, List.length_append, List.length_map, List.length_range, ih,
      Nat.succ_mul, Nat.add_comm]

theorem count_flatten_replicate (a n : Nat) (l : List Nat) :
    ((List.replicate n l).flatten).count a = n * l.count a := by
  induction n with
  | zero => simp
  | succ k ih => simp [List.replicate_succ, ih, Nat.succ_mul, Nat.add_comm]

theorem sentValues_count (count iterations k : Nat) :
    (sentValues count iterations).count (k + 1) =
      if k < count then iterations else 0 := by
  have hmap : ((List.range count).map (· + 1)).count (k + 1) =
      (List.range count).count k :=
    List.count_map_of_injective (List.range count) (· + 1)
      (fun a b h => by simpa using h) k
  have hrange : (List.range count).count k = if k < count then 1 else 0 := by
    by_cases hk : k < count
    · rw [if_pos hk]
      exact List.count_eq_one_of_mem (List.nodup_range count) (List.mem_range.mpr hk)
    · rw [if_neg hk]
      exact List.count_eq_zero.mpr fun h => hk (List.mem_range.mp h)
  rw [sentValues, count_flatten_replicate, hmap, hrange]
  by_cases hk : k < count <;> simp [hk]

theorem count_map_pred (l : List Nat) (h : ∀ v ∈ l, v ≠ 0) (k : Nat) :
    (l.map (· - 1)).count k = l.count (k + 1) := by
  induction l with
  | nil => simp
  | cons x xs ih =>
    have hx : x ≠ 0 := h x (List.mem_cons_self x xs)
    simp only [List.map_cons, List.count_cons,
      ih fun v hv => h v (List.mem_cons_of_mem x hv)]
    have hbeq : (x - 1 == k) = (x == k + 1) := by
      cases x with
      | zero => exact absurd rfl hx
      | succ y => simp [Nat.succ_sub_one]
    rw [hbeq]

/-- Claim C3: a fixed-count driver run with `count ≥ 1`, `concurrency ≥ 1`,
`iterations ≥ 1` and only 2xx StorageClient responses performs exactly
`count × iterations` object operations, each generated task index exactly
once — no index duplicated, none skipped, and no worker aborts.  The
workers may split the sent values (`iterations` rounds of `1 .. count`,
cli.go 694-717) in any way, as long as each sent value is received exactly
once (`hperm`). -/
theorem benchFixedCount_exact_once (count iterations concurrency : Nat) (coe : Bool)
    (st : Nat → Nat) (hcount : 1 ≤ count) (hiter : 1 ≤ iterations)
    (hconc : 1 ≤ concurrency) (h2 : ∀ i, st i / 100 = 2)
    (ws : List (List Nat)) (hlen : ws.length = concurrency)
    (hperm : ws.flatten.Perm (sentValues count iterations)) :
    ((ws.map fun vs => (workerRun coe st vs).ops).flatten.length = count * iterations) ∧
    (∀ k, k < count →
      (ws.map fun vs => (workerRun coe st vs).ops).flatten.count k = iterations) ∧
    (∀ k, count ≤ k →
      (ws.map fun vs => (workerRun coe st vs).ops).flatten.count k = 0) ∧
    (∀ vs ∈ ws, (workerRun coe st vs).fatalExit = false) := by
  have h0 : ∀ v ∈ ws.flatten, v ≠ 0 := fun v hv =>
    sentValues_pos count iterations v (hperm.mem_iff.mp hv)
  have h0w : ∀ vs ∈ ws, ∀ v ∈ vs, v ≠ 0 := fun vs hvs v hv =>
    h0 v (List.mem_flatten.mpr ⟨vs, hvs, hv⟩)
  have hops : (ws.map fun vs => (workerRun coe st vs).ops) =
      ws.map fun vs => vs.map (· - 1) := by
    refine List.map_congr_left fun vs hvs => ?_
    rw [workerRun_all_ok coe st vs (h0w vs hvs) h2]
  have hflat : (ws.map fun vs => (workerRun coe st vs).ops).flatten =
      ws.flatten.map (· - 1) := by
    rw [hops, ← List.map_flatten]
  refine ⟨?_, ?_, ?_, ?_⟩
  · rw [hflat, List.length_map, hperm.length_eq, sentValues_length]
    exact Nat.mul_comm iterations count
  · intro k hk
    rw [hflat, count_map_pred ws.flatten h0 k, hperm.count_eq, sentValues_count]
    simp [hk]
  · intro k hk
    rw [hflat, count_map_pred ws.flatten h0 k, hperm.count_eq, sentValues_count]
    simp [Nat.not_lt.mpr hk]
  · intro vs hvs
    rw [workerRun_all_ok coe st vs (h0w vs hvs) h2]

/-- Concrete instance of C3: two workers splitting two rounds of values
`1, 2` perform four operations, each index twice. -/
theorem benchFixedCount_exact_once_w :
    (([[1, 2], [1, 2]].map fun vs =>
        (workerRun false (fun _ => 200) vs).ops).flatten.length = 2 * 2) ∧
    (∀ k, k < 2 →
      ([[1, 2], [1, 2]].map fun vs =>
        (workerRun false (fun _ => 200) vs).ops).flatten.count k = 2) ∧
    (∀ k, 2 ≤ k →
      ([[1, 2], [1, 2]].map fun vs =>
        (workerRun false (fun _ => 200) vs).ops).flatten.count k = 0) ∧
    (∀ vs ∈ [[1, 2], [1, 2]], (workerRun false (fun _ => 200) vs).fatalExit = false) :=
  benchFixedCount_exact_once 2 2 2 false (fun _ => 200) (by decide) (by decide)
    (by decide) (fun _ => by norm_num) [[1, 2], [1, 2]] (by decide) (by decide)

theorem workerRun_prefix_fatal (st : Nat → Nat) (v : Nat) (hv : v ≠ 0)
    (hfail : st (v - 1) / 100 ≠ 2) :
    ∀ (pre rest : List Nat), (∀ u ∈ pre, u ≠ 0 ∧ st (u - 1) / 100 = 2) →
      workerRun false st (pre ++ v :: rest) =
        ⟨pre.map (· - 1) ++ [v - 1], [v - 1], true⟩ := by
  intro pre
  induction pre with
  | nil => intro rest _; simp [workerRun, hv, hfail]
  | cons u us ih =>
    intro rest hpre
    obtain ⟨hu0, hu2⟩ := hpre u (List.mem_cons_self _ _)
    have hrec := ih rest fun w hw => hpre w (List.mem_cons_of_mem _ hw)
    simp only [List.cons_append, workerRun, hu0, if_false, hu2, if_true,
      List.append_eq, hrec, List.map_cons]

theorem workerRun_prefix_skip (st : Nat → Nat) (v : Nat) (hv : v ≠ 0)
    (hfail : st (v - 1) / 100 ≠ 2) :
    ∀ (pre rest : List Nat), (∀ u ∈ pre, u ≠ 0 ∧ st (u - 1) / 100 = 2) →
      workerRun true st (pre ++ v :: rest) =
        ⟨pre.map (· - 1) ++ (v - 1) :: (workerRun true st rest).ops,
         (v - 1) :: (workerRun true st rest).diags,
         (workerRun true st rest).fatalExit⟩ := by
  intro pre
  induction pre with
  | nil => intro rest _; simp [workerRun, hv, hfail]
  | cons u us ih =>
    intro rest hpre
    obtain ⟨hu0, hu2⟩ := hpre u (List.mem_cons_self _ _)
    have hrec := ih rest fun w hw => hpre w (List.mem_cons_of_mem _ hw)
    simp only [List.cons_append, workerRun, hu0, if_false, hu2, if_true,
      List.append_eq, hrec, List.map_cons]

/-- Claim C5: a non-2xx response in a bench worker has exactly two possible
outcomes, chosen by the `-continue-on-error` flag: with the flag off, the
worker prints the one diagnostic for the failed operation and the process
exits nonzero immediately after that operation — nothing further is issued;
with the flag on, the same diagnostic is printed and the worker proceeds to
the remaining tasks without the process exiting.  In both cases the failed
operation is issued exactly once (never retried). -/
theorem benchWorker_failure_semantics (st : Nat → Nat) (pre rest : List Nat) (v : Nat)
    (hpre : ∀ u ∈ pre, u ≠ 0 ∧ st (u - 1) / 100 = 2)
    (hv : v ≠ 0) (hfail : st (v - 1) / 100 ≠ 2) :
    (workerRun false st (pre ++ v :: rest) =
      ⟨pre.map (· - 1) ++ [v - 1], [v - 1], true⟩) ∧
    (workerRun true st (pre ++ v :: rest) =
      ⟨pre.map (· - 1) ++ (v - 1) :: (workerRun true st rest).ops,
       (v - 1) :: (workerRun true st rest).diags,
       (workerRun true st rest).fatalExit⟩) ∧
    ((workerRun true st (pre ++ v :: rest)).fatalExit = false) ∧
    ((pre.map (· - 1) ++ [v - 1]).count (v - 1) = 1) := by
  have hnotpre : (v - 1) ∉ pre.map (· - 1) := by
    intro hmem
    obtain ⟨u, hu, hequ⟩ := List.mem_map.mp hmem
    obtain ⟨hu0, hu2⟩ := hpre u hu
    have : u = v := by omega
    exact hfail (this ▸ hu2)
  refine ⟨workerRun_prefix_fatal st v hv hfail pre rest hpre,
    workerRun_prefix_skip st v hv hfail pre rest hpre,
    workerRun_true_no_fatal st _, ?_⟩
  rw [List.count_append, List.count_eq_zero.mpr hnotpre]
  simp

/-- Concrete instance of C5: with statuses 200, 503, 200 for indices
0, 1, 2, the fatal run stops right after index 1 and the
continue-on-error run prints the diagnostic and finishes all tasks. -/
theorem benchWorker_failure_semantics_w :
    (workerRun false (fun i => if i = 1 then 503 else 200) ([1] ++ 2 :: [3]) =
      ⟨[1].map (· - 1) ++ [2 - 1], [2 - 1], true⟩) ∧
    (workerRun true (fun i => if i = 1 then 503 else 200) ([1] ++ 2 :: [3]) =
      ⟨[1].map (· - 1) ++ (2 - 1) ::
         (workerRun true (fun i => if i = 1 then 503 else 200) [3]).ops,
       (2 - 1) :: (workerRun true (fun i => if i = 1 then 503 else 200) [3]).diags,
       (workerRun true (fun i => if i = 1 then 503 else 200) [3]).fatalExit⟩) ∧
    ((workerRun true (fun i => if i = 1 then 503 else 200) ([1] ++ 2 :: [3])).fatalExit
      = false) ∧
    (([1].map (· - 1) ++ [2 - 1]).count (2 - 1) = 1) :=
  benchWorker_failure_semantics (fun i => if i = 1 then 503 else 200) [1] [3] 2
    (by decide) (by decide) (by decide)

/-- Claim C6: with configured `-size s ≥ 0` and `-maxsize m`, every
benchPut body is exactly `s` bytes when `m ≤ s`, and between `s`
(inclusive) and `m` (exclusive) when `m > s`. -/
theorem benchPut_body_size (s m : Int) (intn : Int → Int) (hs : 0 ≤ s)
    (hintn : ∀ n, 0 < n → 0 ≤ intn n ∧ intn n < n) :
    (m ≤ s → putBodyLen (benchPutSize s) (benchPutMaxSize m (benchPutSize s)) intn = s) ∧
    (s < m → s ≤ putBodyLen (benchPutSize s) (benchPutMaxSize m (benchPutSize s)) intn ∧
      putBodyLen (benchPutSize s) (benchPutMaxSize m (benchPutSize s)) intn < m) := by
  have hsz : benchPutSize s = s := if_neg (by omega)
  rw [hsz]
  constructor
  · intro hms
    have hmax : benchPutMaxSize m s = s := by
      unfold benchPutMaxSize
      by_cases h : m < s
      · rw [if_pos h]
      · rw [if_neg h]; omega
    rw [hmax, putBodyLen, if_neg (by omega)]
  · intro hms
    have hmax : benchPutMaxSize m s = m := if_neg (by omega)
    rw [hmax, putBodyLen, if_pos (by omega)]
    have := hintn (m - s) (by omega)
    omega

/-- Concrete instance of C6: `-size 100 -maxsize 200` always yields a body
length in `[100, 200)`. -/
theorem benchPut_body_size_w :
    100 ≤ putBodyLen (benchPutSize 100) (benchPutMaxSize 200 (benchPutSize 100))
        (fun n => n - 1) ∧
    putBodyLen (benchPutSize 100) (benchPutMaxSize 200 (benchPutSize 100))
        (fun n => n - 1) < 200 :=
  (benchPut_body_size 100 200 (fun n => n - 1) (by norm_num)
    (fun n hn => ⟨by show (0 : Int) ≤ n - 1; omega, by show n - 1 < n; omega⟩)).2
    (by norm_num)

/-- Claim C7: the zero-baseline first data row of the mixed driver's
per-interval throughput CSV (cli.go 961) has seven fields — the timestamp
plus six `"0"`s — while its header row (cli.go 960) declares six columns,
so the baseline row does not match the header width; the mixed tick rows
and all rows of the single-kind throughput CSVs do match their headers. -/
theorem benchMixed_csvot_zero_row_mismatch (now : Nat) (d1 d2 d3 d4 d5 : Int)
    (soFar lastSoFar : Int) :
    (mixedOTZeroRow now).length = 7 ∧
    mixedOTHeaderRow.length = 6 ∧
    (mixedOTZeroRow now).length ≠ mixedOTHeaderRow.length ∧
    (mixedOTTickRow now d1 d2 d3 d4 d5).length = mixedOTHeaderRow.length ∧
    (singleOTZeroRow now).length = singleOTHeaderRow.length ∧
    (singleOTTickRow now soFar lastSoFar).length = singleOTHeaderRow.length := by
  refine ⟨rfl, rfl, by simp [mixedOTZeroRow, mixedOTHeaderRow], rfl, rfl, rfl⟩

/-- Claim C8: every `soFar` value a fixed-count producer prints at a ticker
tick equals the value being dispatched minus the concurrency level, and for
some configurations (concurrency larger than the index reached when the
tick fires) that value is negative. -/
theorem benchFixed_soFar_estimate :
    (∀ (count concurrency : Nat) (ticks : Nat → Nat) (r : Int),
        r ∈ benchLoopReports count concurrency ticks →
        ∃ i, 1 ≤ i ∧ i ≤ count ∧ r = (i : Int) - (concurrency : Int)) ∧
    (∃ (count concurrency : Nat) (ticks : Nat → Nat) (r : Int),
        r ∈ benchLoopReports count concurrency ticks ∧ r < 0) := by
  constructor
  · intro count concurrency ticks r hr
    simp only [benchLoopReports, List.mem_flatMap] at hr
    obtain ⟨i, hi, hrep⟩ := hr
    have hval := List.eq_of_mem_replicate hrep
    have hrange := List.mem_range'_1.mp hi
    exact ⟨i, by omega, by omega, hval⟩
  · exact ⟨1, 2, fun _ => 1, -1, by decide, by decide⟩

/-- Concrete instance of C8: with `count = 1` and `concurrency = 2`, a tick
while dispatching value 1 prints `soFar = -1`. -/
theorem benchFixed_soFar_estimate_w :
    ∃ i : Nat, 1 ≤ i ∧ i ≤ 1 ∧ (-1 : Int) = (i : Int) - ((2 : Nat) : Int) :=
  benchFixed_soFar_estimate.1 1 2 (fun _ => 1) (-1) (by decide)

/-- Claim C10: a fixed-count worker treats the received value 0 as the
termination sentinel and decrements every nonzero value before deriving
names, so a run over the sent values `1 .. count` operates on exactly the
indices `0 .. count-1` — object names `object+0` through `object+(count-1)`
— and, with more than one container, the container suffix for the task sent
as value `v` is `(v-1) mod containers`. -/
theorem benchFixed_sentinel_names (count containers : Nat) (container object : String) :
    (workerStep 0 = none) ∧
    (∀ v, v ≠ 0 → workerStep v = some (v - 1)) ∧
    ((sentValues count 1).filterMap workerStep = List.range count) ∧
    (((sentValues count 1).filterMap workerStep).map (opObjectName object) =
      (List.range count).map fun i => object ++ toString i) ∧
    (containers > 1 → ∀ v, v ≠ 0 →
      opContainerName container containers (v - 1) =
        container ++ toString ((v - 1) % containers)) := by
  have hsv : sentValues count 1 = (List.range count).map (· + 1) := by
    simp [sentValues]
  have hfm : (sentValues count 1).filterMap workerStep = List.range count := by
    rw [hsv, List.filterMap_map]
    have hcomp : (workerStep ∘ (· + 1)) = some := by
      funext v
      simp [workerStep, Function.comp]
    rw [hcomp, List.filterMap_some]
  refine ⟨rfl, fun v hv => by simp [workerStep, hv], hfm, ?_, ?_⟩
  · rw [hfm]
    exact List.map_congr_left fun i _ => rfl
  · intro hgt v hv
    simp [opContainerName, hgt]

/-- Concrete instance of C10: three tasks over two containers yield object
indices `0, 1, 2` and container suffix `(v-1) mod 2`. -/
theorem benchFixed_sentinel_names_w :
    (workerStep 0 = none) ∧
    (∀ v, v ≠ 0 → workerStep v = some (v - 1)) ∧
    ((sentValues 3 1).filterMap workerStep = List.range 3) ∧
    (((sentValues 3 1).filterMap workerStep).map (opObjectName "bench-") =
      (List.range 3).map fun i => "bench-" ++ toString i) ∧
    (2 > 1 → ∀ v, v ≠ 0 →
      opContainerName "ct" 2 (v - 1) = "ct" ++ toString ((v - 1) % 2)) :=
  benchFixed_sentinel_names 3 2 "ct" "bench-"

theorem cursor_withCursor (s : MixedState) (m : Method) (v : Nat) :
    (s.withCursor m v).cursor m = v := by
  cases m <;> rfl

theorem steps_append (c : Nat) :
    ∀ (l1 : List MEv) {l2 : List MEv} {a b d : MixedState},
      Steps c a l1 b → Steps c b l2 d → Steps c a (l1 ++ l2) d := by
  intro l1
  induction l1 with
  | nil =>
    intro l2 a b d h1 h2
    cases h1
    exact h2
  | cons ev rest ih =>
    intro l2 a b d h1 h2
    cases h1 with
    | cons hstep hrest => exact Steps.cons hstep (ih hrest h2)

theorem steps_split (c : Nat) :
    ∀ (l1 l2 : List MEv) (a b : MixedState), Steps c a (l1 ++ l2) b →
      ∃ mid, Steps c a l1 mid ∧ Steps c mid l2 b := by
  intro l1
  induction l1 with
  | nil => exact fun l2 a b h => ⟨a, Steps.nil a, h⟩
  | cons ev rest ih =>
    intro l2 a b h
    cases h with
    | cons h1 hrest =>
      obtain ⟨mid, hm1, hm2⟩ := ih l2 _ b hrest
      exact ⟨mid, Steps.cons h1 hm1, hm2⟩

theorem putsOnly_steps (c n : Nat) (hc : 0 < c) :
    Steps c (initState c) (putsOnlyEvs n) (putsOnly c n) := by
  induction n with
  | zero => exact Steps.nil _
  | succ k ih =>
    have h1 : Step c (putsOnly c k) (.dispatch .put k)
        (((putsOnly c k).withSentInc .put).withCursor .put (k + 1)) :=
      Step.dispatchPut (putsOnly c k) rfl
    have h2 : Step c (((putsOnly c k).withSentInc .put).withCursor .put (k + 1))
        (.complete .put) (putsOnly c (k + 1)) :=
      Step.completeOp _ .put hc (Nat.lt_succ_self k)
    exact steps_append c (putsOnlyEvs k) ih
      (Steps.cons h1 (Steps.cons h2 (Steps.nil _)))

/-- Claim C1: in benchMixed, every index sent on the DELETE channel is, at
its dispatch step, at most the completed-PUT counter minus the 10000 safety
margin — in particular strictly below the completed-PUT counter; the DELETE
producer (cli.go 1337-1359) sends its cursor only when
`i ≤ puts - 10000`, and otherwise sleeps and rechecks.  A dispatch step
reads the counters of the state it fires in. -/
theorem benchMixed_delete_dispatch_gated (c : Nat) (s s' : MixedState) (i : Nat)
    (hre : Reachable c s) (hstep : Step c s (MEv.dispatch Method.delet i) s') :
    (i : Int) ≤ (s.puts : Int) - 10000 ∧ (i : Int) < (s.puts : Int) := by
  cases hstep with
  | dispatchDelete h hg => exact ⟨hg, by omega⟩
  | dispatchGhp m' i' hm h hp => rcases hm with h1 | h1 | h1 <;> simp at h1

/-- Concrete instance of C1: after 10000 completed PUTs the first DELETE
dispatch (index 0) satisfies the gate. -/
theorem benchMixed_delete_dispatch_gated_w :
    ((0 : Nat) : Int) ≤ ((putsOnly 1 10000).puts : Int) - 10000 ∧
    ((0 : Nat) : Int) < ((putsOnly 1 10000).puts : Int) :=
  benchMixed_delete_dispatch_gated 1 (putsOnly 1 10000)
    (((putsOnly 1 10000).withSentInc .delet).withCursor .delet 1) 0
    ⟨putsOnlyEvs 10000, putsOnly_steps 1 10000 (by decide)⟩
    (Step.dispatchDelete (putsOnly 1 10000) rfl (by decide))

theorem pend_withSentInc (s : MixedState) (m m' : Method) :
    (s.withSentInc m').pend m = s.pend m := by
  cases m <;> cases m' <;> rfl

theorem pend_withCursor (s : MixedState) (m m' : Method) (v : Nat) :
    (s.withCursor m' v).pend m = s.pend m := by
  cases m <;> cases m' <;> rfl

theorem pend_withCompletedInc (s : MixedState) (m m' : Method) :
    (s.withCompletedInc m').pend m = s.pend m := by
  cases m <;> cases m' <;> rfl

theorem pend_withProdDead (s : MixedState) (m m' : Method) :
    (s.withProdDead m').pend m = s.pend m := by
  cases m <;> cases m' <;> rfl

theorem pend_withWorkerDec (s : MixedState) (m m' : Method) :
    (s.withWorkerDec m').pend m = s.pend m := by
  cases m <;> cases m' <;> rfl

theorem pend_withPend_self (s : MixedState) (m : Method)
    (hm : m = .get ∨ m = .head ∨ m = .post) (v : Option Nat) :
    (s.withPend m v).pend m = v := by
  rcases hm with rfl | rfl | rfl <;> rfl

theorem pend_withPend_other (s : MixedState) (m m' : Method) (v : Option Nat)
    (hne : m ≠ m') : (s.withPend m' v).pend m = s.pend m := by
  cases m <;> cases m' <;> first | rfl | exact absurd rfl hne

theorem puts_withSentInc (s : MixedState) (m' : Method) :
    (s.withSentInc m').puts = s.puts := by
  cases m' <;> rfl

theorem puts_withCursor (s : MixedState) (m' : Method) (v : Nat) :
    (s.withCursor m' v).puts = s.puts := by
  cases m' <;> rfl

theorem puts_withPend (s : MixedState) (m' : Method) (v : Option Nat) :
    (s.withPend m' v).puts = s.puts := by
  cases m' <;> rfl

theorem puts_withProdDead (s : MixedState) (m' : Method) :
    (s.withProdDead m').puts = s.puts := by
  cases m' <;> rfl

theorem puts_withWorkerDec (s : MixedState) (m' : Method) :
    (s.withWorkerDec m').puts = s.puts := by
  cases m' <;> rfl

theorem puts_le_withCompletedInc (s : MixedState) (m' : Method) :
    s.puts ≤ (s.withCompletedInc m').puts := by
  cases m' <;> first | exact Nat.le_refl _ | exact Nat.le_succ _

theorem ghpNext_le_hi (c : Nat) (s : MixedState) (cur : Nat)
    (hg : (ghpLo c s : Int) ≤ ghpHi c s) :
    (ghpNext c s cur : Int) ≤ ghpHi c s := by
  simp only [ghpNext, ghpClamp1, ghpLo, ghpHi] at hg ⊢
  split_ifs <;> omega

theorem step_puts_mono (c : Nat) {s s' : MixedState} {ev : MEv}
    (hstep : Step c s ev s') : s.puts ≤ s'.puts := by
  cases hstep with
  | dispatchPut h =>
    rw [puts_withCursor, puts_withSentInc]
  | dispatchDelete h hg =>
    rw [puts_withCursor, puts_withSentInc]
  | ghpArm m' hm h hp hg =>
    rw [puts_withPend, puts_withCursor]
  | dispatchGhp m' i' hm h hp =>
    rw [puts_withPend, puts_withCursor, puts_withSentInc]
  | pollDelete h hd hg => exact Nat.le_refl _
  | pollGhp m' hm h hp hd hg =>
    rw [puts_withCursor]
  | completeOp m' hw hs => exact puts_le_withCompletedInc s m'
  | fireTimer h => exact Nat.le_refl _
  | exitProd m' hd h =>
    rw [puts_withProdDead]
  | exitWorker m' hd hw =>
    rw [puts_withWorkerDec]
  | exitReporter hd h => exact Nat.le_refl _

theorem step_pend_cases (c : Nat) {s s' : MixedState} {ev : MEv}
    (hstep : Step c s ev s') (m : Method)
    (hm : m = .get ∨ m = .head ∨ m = .post) (i : Nat)
    (hp : s'.pend m = some i) :
    s.pend m = some i ∨ (i : Int) ≤ ghpHi c s := by
  cases hstep with
  | dispatchPut h =>
    rw [pend_withCursor, pend_withSentInc] at hp
    exact Or.inl hp
  | dispatchDelete h hg =>
    rw [pend_withCursor, pend_withSentInc] at hp
    exact Or.inl hp
  | ghpArm m' hm2 h hp2 hg =>
    by_cases hmm : m = m'
    · subst hmm
      rw [pend_withPend_self _ _ hm] at hp
      have hi : ghpNext c s (s.cursor m) = i := by injection hp
      rw [← hi]
      exact Or.inr (ghpNext_le_hi c s (s.cursor m) hg)
    · rw [pend_withPend_other _ _ _ _ hmm, pend_withCursor] at hp
      exact Or.inl hp
  | dispatchGhp m' i' hm2 h hp2 =>
    by_cases hmm : m = m'
    · subst hmm
      rw [pend_withPend_self _ _ hm] at hp
      simp at hp
    · rw [pend_withPend_other _ _ _ _ hmm, pend_withCursor, pend_withSentInc] at hp
      exact Or.inl hp
  | pollDelete h hd hg => exact Or.inl hp
  | pollGhp m' hm2 h hp2 hd hg =>
    rw [pend_withCursor] at hp
    exact Or.inl hp
  | completeOp m' hw hs =>
    rw [pend_withCompletedInc] at hp
    exact Or.inl hp
  | fireTimer h =>
    rcases hm with rfl | rfl | rfl <;> exact Or.inl hp
  | exitProd m' hd h =>
    rw [pend_withProdDead] at hp
    exact Or.inl hp
  | exitWorker m' hd hw =>
    rw [pend_withWorkerDec] at hp
    exact Or.inl hp
  | exitReporter hd h =>
    rcases hm with rfl | rfl | rfl <;> exact Or.inl hp

theorem pend_bound_aux (c : Nat) :
    ∀ (evs : List MEv) (s0 s : MixedState), Steps c s0 evs s →
      (∀ m, (m = .get ∨ m = .head ∨ m = .post) → ∀ i, s0.pend m = some i →
        (i : Int) ≤ ghpHi c s0) →
      ∀ m, (m = .get ∨ m = .head ∨ m = .post) → ∀ i, s.pend m = some i →
        (i : Int) ≤ ghpHi c s := by
  intro evs
  induction evs with
  | nil =>
    intro s0 s hst hinv
    cases hst
    exact hinv
  | cons ev rest ih =>
    intro s0 s hst hinv
    cases hst with
    | cons h1 hrest =>
      refine ih _ _ hrest ?_
      intro m hm i hp
      have hmono := step_puts_mono c h1
      rcases step_pend_cases c h1 m hm i hp with hold | hnew
      · have hb := hinv m hm i hold
        simp only [ghpHi] at hb ⊢
        omega
      · simp only [ghpHi] at hnew ⊢
        omega

theorem pend_bound (c : Nat) (evs : List MEv) (s : MixedState)
    (hsteps : Steps c (initState c) evs s) (m : Method)
    (hm : m = .get ∨ m = .head ∨ m = .post) (i : Nat) (hp : s.pend m = some i) :
    (i : Int) ≤ ghpHi c s := by
  refine pend_bound_aux c evs (initState c) s hsteps ?_ m hm i hp
  intro m' hm' i' hp'
  rcases hm' with rfl | rfl | rfl <;>
    simp [initState, MixedState.pend] at hp'

theorem cxState_steps : Steps 1 (initState 1) cxEvs cxState :=
  steps_append 1 (putsOnlyEvs 10004) (putsOnly_steps 1 10004 (by decide))
    (Steps.cons (Step.ghpArm (putsOnly 1 10004) .get (Or.inl rfl) rfl rfl (by decide))
      (Steps.cons (Step.dispatchDelete _ rfl (by decide))
        (Steps.cons (Step.completeOp _ .delet (by decide) (by decide))
          (Steps.cons (Step.dispatchDelete _ rfl (by decide))
            (Steps.cons (Step.completeOp _ .delet (by decide) (by decide))
              (Steps.cons (Step.dispatchDelete _ rfl (by decide))
                (Steps.cons (Step.completeOp _ .delet (by decide) (by decide))
                  (Steps.nil cxState))))))))

/-- Claim C2 as stated fails on the code: the atomic loads of `deletes` and
`puts` and the blocking channel send of a GET/HEAD/POST producer are
separate instructions (cli.go 1365-1387), and delete workers keep
completing while the producer is blocked, so at the step where the send
completes the lower bound `deletes + 2·concurrency ≤ i` — even
`deletes ≤ i` — need not hold.  Concretely, at concurrency 1, after 10004
completed PUTs the GET producer arms index 2 (its window is `[2, 10002]`),
three DELETEs then complete, and the armed send of index 2 fires in a
reachable state with `deletes = 3 > 2`. -/
theorem benchMixed_ghp_dispatch_window_cx :
    ¬ (∀ (c : Nat) (s s' : MixedState) (m : Method) (i : Nat),
        (m = .get ∨ m = .head ∨ m = .post) →
        Reachable c s → Step c s (MEv.dispatch m i) s' →
        s.deletes + c * 2 ≤ i ∧ (i : Int) ≤ (s.puts : Int) - (c : Int) * 2 ∧
        s.deletes ≤ i ∧ i < s.puts) := by
  intro h
  have hstep : Step 1 cxState (MEv.dispatch Method.get 2)
      (((cxState.withSentInc .get).withCursor .get 3).withPend .get none) :=
    Step.dispatchGhp cxState .get 2 (Or.inl rfl) rfl rfl
  have hb := h 1 cxState _ .get 2 (Or.inl rfl) ⟨cxEvs, cxState_steps⟩ hstep
  have h3 : (3 : Nat) ≤ 2 := hb.2.2.1
  omega

/-- Claim C2, amended: a GET/HEAD/POST producer (cli.go 1360-1449) loads
the `deletes` and `puts` counters, clamps its cursor, tests the gate, and
only then blocks in the `select` that sends the clamped index; so every
index `i` it ever sends satisfies
`deletes + 2·concurrency ≤ i ≤ puts − 2·concurrency` — in particular
`deletes ≤ i < puts` — with respect to the counters sampled in that same
loop iteration (the `arm` step); at the step where the blocking send
completes, `i` is exactly the armed pending value and the puts-side bound
`i ≤ puts − 2·concurrency` (hence `i < puts`) still holds, because `puts`
only grows, but the deletes-side bound may no longer hold since `deletes`
can advance while the producer is blocked; when the window is empty or
inverted the producer instead re-clamps its cursor to the low bound and
polls. -/
theorem benchMixed_ghp_dispatch_window (c : Nat) (hc : 1 ≤ c) (m : Method)
    (hm : m = .get ∨ m = .head ∨ m = .post) (s : MixedState) (ev : MEv)
    (s' : MixedState) (hre : Reachable c s) (hstep : Step c s ev s') :
    (∀ i, ev = .arm m i →
      s.deletes + c * 2 ≤ i ∧ (i : Int) ≤ (s.puts : Int) - (c : Int) * 2 ∧
      s.deletes ≤ i ∧ i < s.puts) ∧
    (∀ i, ev = .dispatch m i →
      s.pend m = some i ∧ (i : Int) ≤ (s.puts : Int) - (c : Int) * 2 ∧ i < s.puts) ∧
    (ev = .poll m →
      ghpHi c s < (ghpLo c s : Int) ∧ s'.cursor m = s.deletes + c * 2) := by
  refine ⟨?_, ?_, ?_⟩
  · intro i hev
    cases hstep with
    | dispatchPut h => exact absurd hev (by simp)
    | dispatchDelete h hg => exact absurd hev (by simp)
    | ghpArm m' hm2 h hp hg =>
      injection hev with hm' hi
      subst hm'
      subst hi
      simp only [ghpNext, ghpClamp1, ghpLo, ghpHi] at hg ⊢
      split_ifs <;> exact ⟨by omega, by omega, by omega, by omega⟩
    | dispatchGhp m' i' hm2 h hp => exact absurd hev (by simp)
    | pollDelete h hd hg => exact absurd hev (by simp)
    | pollGhp m' hm2 h hp hd hg => exact absurd hev (by simp)
    | completeOp m' hw hs => exact absurd hev (by simp)
    | fireTimer h => exact absurd hev (by simp)
    | exitProd m' hd h => exact absurd hev (by simp)
    | exitWorker m' hd hw => exact absurd hev (by simp)
    | exitReporter hd h => exact absurd hev (by simp)
  · intro i hev
    cases hstep with
    | dispatchPut h =>
      injection hev with hm' hi
      rcases hm with h1 | h1 | h1 <;> (rw [← hm'] at h1; simp at h1)
    | dispatchDelete h hg =>
      injection hev with hm' hi
      rcases hm with h1 | h1 | h1 <;> (rw [← hm'] at h1; simp at h1)
    | ghpArm m' hm2 h hp hg => exact absurd hev (by simp)
    | dispatchGhp m' i' hm2 h hp =>
      injection hev with hm' hi
      subst hm'
      subst hi
      obtain ⟨evs, hsteps⟩ := hre
      have hb := pend_bound c evs s hsteps _ hm _ hp
      simp only [ghpHi] at hb
      exact ⟨hp, hb, by omega⟩
    | pollDelete h hd hg => exact absurd hev (by simp)
    | pollGhp m' hm2 h hp hd hg => exact absurd hev (by simp)
    | completeOp m' hw hs => exact absurd hev (by simp)
    | fireTimer h => exact absurd hev (by simp)
    | exitProd m' hd h => exact absurd hev (by simp)
    | exitWorker m' hd hw => exact absurd hev (by simp)
    | exitReporter hd h => exact absurd hev (by simp)
  · intro hev
    cases hstep with
    | dispatchPut h => exact absurd hev (by simp)
    | dispatchDelete h hg => exact absurd hev (by simp)
    | ghpArm m' hm2 h hp hg => exact absurd hev (by simp)
    | dispatchGhp m' i' hm2 h hp => exact absurd hev (by simp)
    | pollDelete h hd hg =>
      injection hev with hm'
      rcases hm with h1 | h1 | h1 <;> (rw [← hm'] at h1; simp at h1)
    | pollGhp m' hm2 h hp hd hg =>
      injection hev with hm'
      subst hm'
      exact ⟨hg, cursor_withCursor s _ _⟩
    | completeOp m' hw hs => exact absurd hev (by simp)
    | fireTimer h => exact absurd hev (by simp)
    | exitProd m' hd h => exact absurd hev (by simp)
    | exitWorker m' hd hw => exact absurd hev (by simp)
    | exitReporter hd h => exact absurd hev (by simp)

/-- Concrete instance of the amended C2: in the reachable state where GET
index 2 is armed and three DELETEs have completed since the arm
(`deletes = 3`), the blocked send completes with exactly the pending index
2, and the puts-side bound still holds at that step. -/
theorem benchMixed_ghp_dispatch_window_w :
    (∀ i, MEv.dispatch Method.get 2 = MEv.arm Method.get i →
      cxState.deletes + 1 * 2 ≤ i ∧
      (i : Int) ≤ (cxState.puts : Int) - (1 : Int) * 2 ∧
      cxState.deletes ≤ i ∧ i < cxState.puts) ∧
    (∀ i, MEv.dispatch Method.get 2 = MEv.dispatch Method.get i →
      cxState.pend Method.get = some i ∧
      (i : Int) ≤ (cxState.puts : Int) - (1 : Int) * 2 ∧ i < cxState.puts) ∧
    (MEv.dispatch Method.get 2 = MEv.poll Method.get →
      ghpHi 1 cxState < (ghpLo 1 cxState : Int) ∧
      ((((cxState.withSentInc .get).withCursor .get 3).withPend .get none)).cursor
          Method.get = cxState.deletes + 1 * 2) :=
  benchMixed_ghp_dispatch_window 1 (le_refl 1) .get (Or.inl rfl) cxState
    (MEv.dispatch Method.get 2)
    (((cxState.withSentInc .get).withCursor .get 3).withPend .get none)
    ⟨cxEvs, cxState_steps⟩
    (Step.dispatchGhp cxState .get 2 (Or.inl rfl) rfl rfl)

theorem prodAlive_withSentInc (s : MixedState) (m m' : Method) :
    (s.withSentInc m').prodAlive m = s.prodAlive m := by
  cases m <;> cases m' <;> rfl

theorem prodAlive_withCursor (s : MixedState) (m m' : Method) (v : Nat) :
    (s.withCursor m' v).prodAlive m = s.prodAlive m := by
  cases m <;> cases m' <;> rfl

theorem prodAlive_withCompletedInc (s : MixedState) (m m' : Method) :
    (s.withCompletedInc m').prodAlive m = s.prodAlive m := by
  cases m <;> cases m' <;> rfl

theorem prodAlive_withWorkerDec (s : MixedState) (m m' : Method) :
    (s.withWorkerDec m').prodAlive m = s.prodAlive m := by
  cases m <;> cases m' <;> rfl

theorem prodAlive_withProdDead (s : MixedState) (m m' : Method)
    (h : s.prodAlive m = false) : (s.withProdDead m').prodAlive m = false := by
  cases m <;> cases m' <;> first | rfl | exact h

theorem prodAlive_withPend (s : MixedState) (m m' : Method) (v : Option Nat) :
    (s.withPend m' v).prodAlive m = s.prodAlive m := by
  cases m <;> cases m' <;> rfl

theorem prodAlive_withProdDead_self (s : MixedState) (m : Method) :
    (s.withProdDead m).prodAlive m = false := by
  cases m <;> rfl

theorem prodAlive_preserved (c : Nat) {s s' : MixedState} {ev : MEv} (m : Method)
    (hstep : Step c s ev s') (h : s.prodAlive m = false) :
    s'.prodAlive m = false := by
  cases hstep with
  | dispatchPut h1 => rw [prodAlive_withCursor, prodAlive_withSentInc]; exact h
  | dispatchDelete h1 hg => rw [prodAlive_withCursor, prodAlive_withSentInc]; exact h
  | ghpArm m' hm h1 hp hg =>
    rw [prodAlive_withPend, prodAlive_withCursor]; exact h
  | dispatchGhp m' i' hm h1 hp =>
    rw [prodAlive_withPend, prodAlive_withCursor, prodAlive_withSentInc]; exact h
  | pollDelete h1 hd hg => exact h
  | pollGhp m' hm h1 hp hd hg => rw [prodAlive_withCursor]; exact h
  | completeOp m' hw hs => rw [prodAlive_withCompletedInc]; exact h
  | fireTimer h1 => cases m <;> exact h
  | exitProd m' hd h1 => exact prodAlive_withProdDead s m m' h
  | exitWorker m' hd hw => rw [prodAlive_withWorkerDec]; exact h
  | exitReporter hd h1 => cases m <;> exact h

theorem dispatch_requires_alive {c : Nat} {s s' : MixedState} {m : Method} {i : Nat}
    (hstep : Step c s (MEv.dispatch m i) s') : s.prodAlive m = true := by
  cases hstep with
  | dispatchPut h => exact h
  | dispatchDelete h hg => exact h
  | dispatchGhp m' i' hm h hp => exact h

theorem dead_no_dispatch (c : Nat) (m : Method) :
    ∀ (evs : List MEv) (s s' : MixedState), Steps c s evs s' →
      s.prodAlive m = false → ∀ i, MEv.dispatch m i ∉ evs := by
  intro evs
  induction evs with
  | nil => intro s s' hst hdead i hmem; exact absurd hmem (List.not_mem_nil _)
  | cons ev rest ih =>
    intro s s' hst hdead i hmem
    cases hst with
    | cons h1 hrest =>
      rcases List.mem_cons.mp hmem with heq | hmem'
      · rw [← heq] at h1
        rw [dispatch_requires_alive h1] at hdead
        simp at hdead
      · exact ih _ _ hrest (prodAlive_preserved c m h1 hdead) i hmem'

/-- Claim C4 as stated fails on the code: closing `doneChan` makes the done
branch of each producer's `select` ready, but a Go `select` with several
ready cases picks among them uniformly at random, so a still-running
producer may dispatch after the timer has fired (cli.go 1452-1461 for the
PUT producer).  Concretely, from a fresh run at concurrency 1 the event
list `[fireTimer, dispatch put 0]` is a valid execution that dispatches a
task after the done-close. -/
theorem benchMixed_dispatch_after_done_cx :
    ¬ (∀ (c : Nat) (evs : List MEv) (s : MixedState),
        Steps c (initState c) evs s →
        ∀ (pr po : List MEv), evs = pr ++ MEv.fireTimer :: po →
        ∀ (m : Method) (i : Nat), MEv.dispatch m i ∉ po) := by
  intro h
  have h1 : Step 1 (initState 1) MEv.fireTimer doneState :=
    Step.fireTimer (initState 1) rfl
  have h2 : Step 1 doneState (MEv.dispatch Method.put 0)
      ((doneState.withSentInc .put).withCursor .put 1) :=
    Step.dispatchPut doneState rfl
  have hsteps : Steps 1 (initState 1) [MEv.fireTimer, MEv.dispatch Method.put 0]
      ((doneState.withSentInc .put).withCursor .put 1) :=
    Steps.cons h1 (Steps.cons h2 (Steps.nil _))
  exact h 1 _ _ hsteps [] [MEv.dispatch Method.put 0] rfl Method.put 0
    (List.mem_cons_self _ _)

/-- Claim C4, amended: once a producer has taken its done branch and
returned, no further task of its kind is ever dispatched; and whenever
`doneChan` is closed, every still-running producer and worker and the
reporter has its exit transition enabled (each selects on the done channel
alongside its normal blocking operation), while an operation already handed
to the StorageClient may still complete rather than being cancelled.  The
original "no new task dispatch step occurs after the done-closed state"
does not hold, because a Go `select` between the closed done channel and a
ready send may pick the send; see the counterexample. -/
theorem benchMixed_shutdown (c : Nat) (evs : List MEv) (s : MixedState)
    (h : Steps c (initState c) evs s) :
    (∀ (pr po : List MEv) (m : Method), evs = pr ++ MEv.exitProd m :: po →
      ∀ i, MEv.dispatch m i ∉ po) ∧
    (s.done = true →
      (∀ m, s.prodAlive m = true → Step c s (MEv.exitProd m) (s.withProdDead m)) ∧
      (∀ m, 0 < s.workersAlive m → Step c s (MEv.exitWorker m) (s.withWorkerDec m)) ∧
      (s.reporter = true → Step c s MEv.exitReporter { s with reporter := false })) := by
  constructor
  · intro pr po m heq i
    rw [heq] at h
    obtain ⟨mid, hpre, hpost⟩ := steps_split c pr (MEv.exitProd m :: po) _ _ h
    cases hpost with
    | cons hexit hrest =>
      cases hexit with
      | exitProd hd2 halive =>
        exact dead_no_dispatch c m po _ _ hrest (prodAlive_withProdDead_self mid m) i
  · intro hd
    exact ⟨fun m hm => Step.exitProd s m hd hm,
      fun m hm => Step.exitWorker s m hd hm,
      fun hr => Step.exitReporter s hd hr⟩

theorem shutdownState_steps :
    Steps 1 (initState 1) [MEv.fireTimer, MEv.exitProd Method.put] shutdownState :=
  Steps.cons (Step.fireTimer (initState 1) rfl)
    (Steps.cons (Step.exitProd doneState Method.put rfl rfl) (Steps.nil _))

/-- Concrete instance of the amended C4: after the timer fires and the PUT
producer exits, a GET worker's exit transition is enabled. -/
theorem benchMixed_shutdown_w :
    Step 1 shutdownState (MEv.exitWorker Method.get)
      (shutdownState.withWorkerDec Method.get) :=
  ((benchMixed_shutdown 1 [MEv.fireTimer, MEv.exitProd Method.put] shutdownState
    shutdownState_steps).2 rfl).2.1 Method.get (by decide)

theorem aBody_op (ord : List Nat) (putsAt x : Nat) (st : AState) (d : Nat × Nat)
    (h : (aBody ord putsAt x st).2 = some d) :
    d.1 = ord.getD (x % ord.length) 0 := by
  simp only [aBody] at h
  split_ifs at h <;> simp_all <;> rw [← h]

theorem aDispatches_op_mem (ord : List Nat) (putsAt : Nat → Nat) :
    ∀ n, ∀ d ∈ (aDispatches ord putsAt n).2,
      ∃ x, d.1 = ord.getD (x % ord.length) 0 := by
  intro n
  induction n with
  | zero => intro d hd; simp [aDispatches] at hd
  | succ k ih =>
    intro d hd
    rcases hab : aBody ord (putsAt k) k (aDispatches ord putsAt k).1 with ⟨st', od⟩
    cases od with
    | none =>
      simp only [aDispatches, hab] at hd
      exact ih d hd
    | some dd =>
      simp only [aDispatches, hab] at hd
      rcases List.mem_append.mp hd with hl | hr
      · exact ih d hl
      · have hdd : d = dd := by simpa using hr
        subst hdd
        exact ⟨k, aBody_op ord (putsAt k) k _ d (by rw [hab])⟩

/-- Claim C9: with ratio spec `1,0,0,0,1` the ratio-interleaved mixed
driver's operation-order table is `[DELETE, PUT]` — only DELETE and PUT
entries — every `(op, index)` pair its request loop ever sends carries op
DELETE or PUT, and hence the GET, HEAD and POST completion counters, which
count completed operations (a subsequence of the dispatched pairs), are
zero throughout the run and at its end. -/
theorem benchMixedA_ratio_no_ghp (putsAt : Nat → Nat) (n : Nat)
    (compl : List (Nat × Nat))
    (hsub : compl.Sublist (aDispatches (opOrderOf [1, 0, 0, 0, 1]) putsAt n).2) :
    opOrderOf [1, 0, 0, 0, 1] = [0, 4] ∧
    (∀ d ∈ (aDispatches (opOrderOf [1, 0, 0, 0, 1]) putsAt n).2,
      d.1 = 0 ∨ d.1 = 4) ∧
    (compl.map Prod.fst).count 1 = 0 ∧
    (compl.map Prod.fst).count 2 = 0 ∧
    (compl.map Prod.fst).count 3 = 0 := by
  have hord : opOrderOf [1, 0, 0, 0, 1] = [0, 4] := by decide
  have hops : ∀ d ∈ (aDispatches (opOrderOf [1, 0, 0, 0, 1]) putsAt n).2,
      d.1 = 0 ∨ d.1 = 4 := by
    intro d hd
    obtain ⟨x, hx⟩ := aDispatches_op_mem (opOrderOf [1, 0, 0, 0, 1]) putsAt n d hd
    rw [hord] at hx
    rcases Nat.mod_two_eq_zero_or_one x with hm | hm
    · left; rw [hx]; simp [hm]
    · right; rw [hx]; simp [hm]
  have hcount : ∀ a, a ≠ 0 → a ≠ 4 → (compl.map Prod.fst).count a = 0 := by
    intro a ha0 ha4
    refine List.count_eq_zero.mpr ?_
    intro hmem
    obtain ⟨d, hd, hda⟩ := List.mem_map.mp hmem
    rcases hops d (hsub.subset hd) with h | h <;> omega
  exact ⟨hord, hops, hcount 1 (by decide) (by decide),
    hcount 2 (by decide) (by decide), hcount 3 (by decide) (by decide)⟩

/-- Concrete instance of C9: two loop iterations of the `1,0,0,0,1` table
dispatch one DELETE and one PUT; completing both leaves the GET, HEAD and
POST counters at zero. -/
theorem benchMixedA_ratio_no_ghp_w :
    opOrderOf [1, 0, 0, 0, 1] = [0, 4] ∧
    (∀ d ∈ (aDispatches (opOrderOf [1, 0, 0, 0, 1]) (fun _ => 1000) 2).2,
      d.1 = 0 ∨ d.1 = 4) ∧
    (([((0 : Nat), (1 : Nat)), (4, 1)].map Prod.fst).count 1 = 0) ∧
    (([((0 : Nat), (1 : Nat)), (4, 1)].map Prod.fst).count 2 = 0) ∧
    (([((0 : Nat), (1 : Nat)), (4, 1)].map Prod.fst).count 3 = 0) :=
  benchMixedA_ratio_no_ghp (fun _ => 1000) 2 [(0, 1), (4, 1)] (by decide)

end Nectar
